import Mathlib

/-!
Verification development for the iiko-bot sources.

Shallow embedding of the Rust sources of the iiko-bot repository
(src/olap.rs, src/iiko.rs, src/tg.rs) and proofs about the embedded
definitions.  Conventions used throughout:

* Every `f64` *value* is a dyadic rational, so `f64` fields are modelled
  as `ℚ` (`Rat`), exactly.  Where the code *computes* with `f64`
  (the `sum_shifts` fold), the operation is modelled faithfully:
  `fp64add` rounds the exact sum to the nearest binary64 value, ties to
  even, as IEEE-754 defines `f64` addition.  The display-only
  `DishDiscountSumInt` is never added, so its rendering claims do not
  depend on rounding.
* `usize`/`u32` counters are modelled as `Nat`; no arithmetic in the
  modelled code can overflow them (they are only compared and displayed).
* `std::time::Instant`/`Duration` are modelled as `Nat` seconds on a
  monotonic clock; `now` is passed explicitly.
* Network round trips return values supplied by an explicit oracle
  argument (the parsed body the remote API would return), and the number
  of network calls performed is returned alongside, so that claims about
  "no additional network call" are statable.
* Rust `usize` subtractions that can underflow (and panic) are written
  with truncating `Nat` subtraction; each such place is marked.
-/

namespace IikoBot

/-! ## src/olap.rs — data model and word wrapping -/

/-- `OlapElement` from src/olap.rs.  `DishDiscountSumInt` is `f64` in the
source, modelled as `ℚ`; `GuestNum` is `u32`, modelled as `Nat`. -/
structure OlapElement where
  DishDiscountSumInt : Rat
  DishName : String
  GuestNum : Nat
  deriving DecidableEq, Repr

/-- `OLAP` from src/olap.rs: one row of the deserialized OLAP response,
with its optional category. -/
structure OLAPRow where
  DishCategory : Option String
  DishDiscountSumInt : Rat
  DishName : String
  GuestNum : Nat
  deriving DecidableEq, Repr

/-- Rust `str::split_whitespace`, modelled by direct recursion over the
character list: split on whitespace characters, discarding empty
fragments.  `acc` holds the characters of the word in progress, reversed. -/
def splitWSCore : List Char → List Char → List String
  | [], acc => if acc = [] then [] else [⟨acc.reverse⟩]
  | c :: cs, acc =>
    if c.isWhitespace then
      if acc = [] then splitWSCore cs []
      else ⟨acc.reverse⟩ :: splitWSCore cs []
    else splitWSCore cs (c :: acc)

def splitWhitespace (s : String) : List String :=
  splitWSCore s.data []

/-- One iteration of the `for word in text.split_whitespace()` loop body of
`wrap_text` (src/olap.rs): flush `current` into `lines` when appending the
word would exceed `width`, then append the word, space-separated. -/
def wrapStep (width : Nat) (acc : List String × String) (word : String) :
    List String × String :=
  let acc := if acc.2 ≠ "" ∧ width < acc.2.length + 1 + word.length then
    (acc.1 ++ [acc.2], "") else acc
  let cur := if acc.2 ≠ "" then acc.2 ++ " " else acc.2
  (acc.1, cur ++ word)

/-- `wrap_text` from src/olap.rs: greedy word wrap of `text` at visual
width `width` (widths are counted in characters, `chars().count()`). -/
def wrap_text (text : String) (width : Nat) : List String :=
  let r := (splitWhitespace text).foldl (wrapStep width) ([], "")
  if r.2 ≠ "" then r.1 ++ [r.2] else r.1

/-! ## src/iiko.rs — display_olap (table rendering) -/

/-- `c.to_string().repeat(n)` / `" ".repeat(n)` from the source, at
character level. -/
def repeatChar (c : Char) (n : Nat) : String :=
  ⟨List.replicate n c⟩

/-- The three headers of `display_olap`. -/
def nameHeader : String := "Название"

def sumHeader : String := "Сумма"

def guestHeader : String := "Заказы"

/-- The comparator of `sorted.sort_by(|a, b| b.GuestNum.cmp(&a.GuestNum))`:
`a` may precede `b` iff `b.GuestNum ≤ a.GuestNum` (descending). -/
def guestLe (a b : OlapElement) : Bool :=
  decide (b.GuestNum ≤ a.GuestNum)

/-- The `sort_by` call of `display_olap`.  Rust's `sort_by` is specified to
be a stable sort, and a stable sort's output is uniquely determined by the
comparator, so `List.mergeSort` (stable) is a faithful model. -/
def sortRows (elements : List OlapElement) : List OlapElement :=
  elements.mergeSort guestLe

/-- `sorted.into_iter().take(20)` of `display_olap`: the rows actually
displayed. -/
def displayedRows (elements : List OlapElement) : List OlapElement :=
  (sortRows elements).take 20

/-- Width of the name column: starts at the header's character count, then
`max`ed with `min(name length, 15)` over the displayed rows. -/
def width0 (displayed : List OlapElement) : Nat :=
  displayed.foldl (fun w e => max w (min e.DishName.length 15)) nameHeader.length

/-- Width of the sum column (`DishDiscountSumInt.to_string().len()`; the
string is ASCII, so byte length equals character count). -/
def width1 (displayed : List OlapElement) : Nat :=
  displayed.foldl (fun w e => max w (toString e.DishDiscountSumInt).length) sumHeader.length

/-- Width of the guest-count column. -/
def width2 (displayed : List OlapElement) : Nat :=
  displayed.foldl (fun w e => max w (toString e.GuestNum).length) guestHeader.length

/-- The `draw_border` closure of `display_olap`, without its trailing
newline.  The source iterates over the widths vector; `headers` is fixed at
three columns, so the three widths are passed explicitly. -/
def draw_border (w0 w1 w2 : Nat) (left middle separator right : Char) : String :=
  String.singleton left ++ repeatChar middle (w0 + 2) ++ String.singleton separator ++
    repeatChar middle (w1 + 2) ++ String.singleton separator ++
    repeatChar middle (w2 + 2) ++ String.singleton right

/-- One centered header cell: `pad_left = (total - h.chars().count()) / 2`,
`pad_right = total - h.chars().count() - pad_left`, `total = w + 2`. -/
def headerCell (w : Nat) (h : String) : String :=
  repeatChar ' ' ((w + 2 - h.length) / 2) ++ h ++
    repeatChar ' ' (w + 2 - h.length - (w + 2 - h.length) / 2)

/-- The header line of the table (without trailing newline). -/
def headerLine (w0 w1 w2 : Nat) : String :=
  "│" ++ headerCell w0 nameHeader ++ "│" ++ headerCell w1 sumHeader ++ "│" ++
    headerCell w2 guestHeader ++ "│"

/-- One data cell: a space, the cell text, then
`pad_right = w + 2 - 1 - cell.chars().count()` spaces.  The subtraction is
`usize` in Rust (underflow panics); truncating `Nat` subtraction stands in
for it here. -/
def dataCell (w : Nat) (cell : String) : String :=
  " " ++ cell ++ repeatChar ' ' (w + 2 - 1 - cell.length)

/-- One rendered data line (a wrapped name line plus the two numeric
cells, blank on continuation lines). -/
def dataLine (w0 w1 w2 : Nat) (name c1 c2 : String) : String :=
  "│" ++ dataCell w0 name ++ "│" ++ dataCell w1 c1 ++ "│" ++ dataCell w2 c2 ++ "│"

/-- The lines contributed by one displayed element: the wrapped name lines,
the first carrying the numeric cells (`line_idx == 0`), the rest blank
cells. -/
def elementLines (w0 w1 w2 : Nat) (e : OlapElement) : List String :=
  match wrap_text e.DishName w0 with
  | [] => []
  | line :: rest =>
    dataLine w0 w1 w2 line (toString e.DishDiscountSumInt) (toString e.GuestNum) ::
      rest.map (fun l => dataLine w0 w1 w2 l "" "")

/-- The data lines of all displayed elements, with a horizontal separator
between consecutive elements (`if idx + 1 != displayed.len()`), and none
after the last. -/
def bodyLines (w0 w1 w2 : Nat) : List OlapElement → List String
  | [] => []
  | [e] => elementLines w0 w1 w2 e
  | e :: e' :: rest =>
    elementLines w0 w1 w2 e ++
      (draw_border w0 w1 w2 '├' '─' '┼' '┤' :: bodyLines w0 w1 w2 (e' :: rest))

/-- All lines of the rendered table, top border to bottom border, without
the surrounding Markdown code fences and without the trailing newlines. -/
def displayLines (elements : List OlapElement) : List String :=
  let displayed := displayedRows elements
  let w0 := width0 displayed
  let w1 := width1 displayed
  let w2 := width2 displayed
  draw_border w0 w1 w2 '┌' '─' '┬' '┐' ::
    headerLine w0 w1 w2 ::
    draw_border w0 w1 w2 '├' '─' '┼' '┤' ::
    (bodyLines w0 w1 w2 displayed ++ [draw_border w0 w1 w2 '└' '─' '┴' '┘'])

/-- `display_olap` from src/iiko.rs: the table between Markdown code
fences, each line followed by a newline. -/
def display_olap (elements : List OlapElement) : String :=
  String.join ((["```"] ++ displayLines elements ++ ["```"]).map (· ++ "\n"))

/-- The common visual width of the table's border lines. -/
def tableWidth (elements : List OlapElement) : Nat :=
  width0 (displayedRows elements) + width1 (displayedRows elements) +
    width2 (displayedRows elements) + 10

/-! ## src/iiko.rs — shifts, token lifecycle, OLAP grouping -/

/-- `SessionStatus` from src/iiko.rs. -/
inductive SessionStatus where
  | OPEN
  | CLOSED
  | ACCEPTED
  | UNACCEPTED
  | HASWARNINGS
  deriving DecidableEq, Repr

/-- `Shift` from src/iiko.rs.  `pay_orders` and `sales_card` are `f64` in
the source; their *values* (finite binary64 numbers) are dyadic rationals,
held exactly in `ℚ` — arithmetic on them (`sum_shifts`) goes through the
rounding `f64` addition `fp64add`.  The `usize`/`i32` fields are
`Nat`/`Int`. -/
structure Shift where
  id : String
  session_number : Nat
  fiscal_number : Nat
  cash_reg_number : Nat
  cash_reg_serial : String
  open_date : String
  close_date : Option String
  accept_date : Option String
  manager_id : String
  responsible_user_id : Option String
  session_start_cash : Nat
  pay_orders : Rat
  sum_writeoff_orders : Nat
  sales_cash : Nat
  sales_credit : Nat
  sales_card : Rat
  pay_in : Nat
  pay_out : Nat
  pay_income : Int
  cash_remain : Option Nat
  cash_diff : Int
  session_status : SessionStatus
  conception_id : Option String
  deriving DecidableEq, Repr

/-- `latest_shift` from src/iiko.rs: offset `0` is the last element, offset
`k` the element at position `len - k - 1`; `offset >= len` is an error
(`.nth` is Rust's `Iterator::nth`, i.e. `List.get?`). -/
def latest_shift (shifts : List Shift) (offset : Nat) : Except String Shift :=
  let len := shifts.length
  if len ≤ offset then
    Except.error ("Нет смены со сдвигом " ++ toString offset)
  else
    match shifts.get? (len - offset - 1) with
    | some s => Except.ok s
    | Option.none => Except.error ("Нет смены со сдвигом " ++ toString offset)

/-- `2 ^ k` by fuelled binary exponentiation.  Structural and shallow
(depth about `⌊log₂ k⌋ + 1 ≤ fuel`), so concrete evaluations reduce
without deep recursion. -/
def pow2Fuel : Nat → Nat → Nat
  | 0, _ => 1
  | fuel + 1, k =>
    if k = 0 then 1
    else
      let h := pow2Fuel fuel (k / 2)
      if k % 2 = 0 then h * h else 2 * h * h

/-- Truncated base-2 logarithm, single-bit steps, with explicit fuel: for
`0 < n < 2 ^ fuel`, `log2Small fuel n = ⌊log₂ n⌋`. -/
def log2Small : Nat → Nat → Nat
  | 0, _ => 0
  | fuel + 1, n => if 2 ≤ n then log2Small fuel (n / 2) + 1 else 0

/-- Truncated base-2 logarithm in 64-bit chunks (the literal is `2 ^ 64`):
for `0 < n < 2 ^ (64 * fuel + 64)`, `log2Fuel fuel n = ⌊log₂ n⌋`, with
recursion depth about `fuel + 64`. -/
def log2Fuel : Nat → Nat → Nat
  | 0, _ => 0
  | fuel + 1, n =>
    if 18446744073709551616 ≤ n then
      log2Fuel fuel (n / 18446744073709551616) + 64
    else log2Small 64 n

/-- Round the fraction `a / b` of naturals (`b ≠ 0`) to the nearest
natural, ties to even — the IEEE-754 default rounding attribute, applied
to the exactly scaled significand (`2 * (a % b)` compared with `b` decides
below, above or exactly at the halfway point). -/
def natRoundHalfEven (a b : Nat) : Nat :=
  let n := a / b
  let r2 := 2 * (a % b)
  if r2 < b then n
  else if b < r2 then n + 1
  else if n % 2 = 0 then n else n + 1

/-- Round a rational to the binary64 (`f64`) value nearest to it, ties to
even: `|q| = q.num.natAbs / q.den` is snapped to the grid of spacing
`2 ^ p`, where `p = ⌊log₂ |q|⌋ - 52` (a 53-bit significand), clamped
below at the subnormal quantum `2 ^ (-1074)`; the sign is reapplied at the
end (nearest-even rounding is symmetric in sign).  `⌊log₂ |q|⌋` is read
off `na * 2 ^ 1100 / den`, exact down to `2 ^ (-1100)` — beyond the full
binary64 range.  Every finite `f64` is exactly such a dyadic rational and
is a fixed point of this map; overflow to infinity, which `ℚ` cannot
carry, lies outside every property stated here.  (Sanity anchor: this map
sends `1/3` to `6004799503160661 / 2 ^ 54`, the binary64 value nearest to
one third.) -/
def fp64round (q : ℚ) : ℚ :=
  if q = 0 then 0
  else
    let na := q.num.natAbs
    let e : Int := (log2Fuel 40 (na * pow2Fuel 64 1100 / q.den) : Int) - 1100
    let p : Int := if e - 52 ≤ -1074 then -1074 else e - 52
    let m : Nat :=
      if 0 ≤ p then natRoundHalfEven na (q.den * pow2Fuel 64 p.toNat)
      else natRoundHalfEven (na * pow2Fuel 64 (-p).toNat) q.den
    let mag : ℚ :=
      if 0 ≤ p then mkRat (Int.ofNat (m * pow2Fuel 64 p.toNat)) 1
      else mkRat (Int.ofNat m) (pow2Fuel 64 (-p).toNat)
    if q.num < 0 then -mag else mag

/-- `f64` addition: IEEE-754 defines each arithmetic operation as the
rounding, to nearest-even, of the exact result. -/
def fp64add (a b : ℚ) : ℚ :=
  fp64round (a + b)

/-- `sum_shifts` from src/iiko.rs:
`shifts.iter().map(|shift| shift.pay_orders).sum::<f64>()` — the
sequential left-to-right `f64` sum of every shift's `pay_orders` (net paid
orders) field, starting from `0.0`, each partial sum rounded to binary64
by `fp64add`. -/
def sum_shifts (shifts : List Shift) : Rat :=
  (shifts.map (fun sh => sh.pay_orders)).foldl fp64add 0

/-- `NewToken` from src/iiko.rs.  `creation_time` is an `Instant`, modelled
as seconds on a monotonic clock; `lifetime` a `Duration` in seconds. -/
structure NewToken where
  id : String
  creation_time : Nat
  lifetime : Nat
  deriving DecidableEq, Repr

/-- `NewToken::is_expired`: `self.creation_time.elapsed() >= self.lifetime`,
evaluated at time `now` (the clock is monotonic, so `creation_time ≤ now`
in every reachable state). -/
def NewToken.is_expired (t : NewToken) (now : Nat) : Bool :=
  decide (t.lifetime ≤ now - t.creation_time)

/-- `Server` from src/iiko.rs: credentials, base URL and the one cached
token slot. -/
structure Server where
  login : String
  pass : String
  url : String
  token : Option NewToken
  deriving DecidableEq, Repr

/-- `Server::new`: the token cache starts empty. -/
def Server.new (login pass url : String) : Server :=
  ⟨login, pass, url, Option.none⟩

/-- `Server::is_authenticated`: a token is usable iff it is present and not
expired. -/
def Server.is_authenticated (s : Server) (now : Nat) : Bool :=
  match s.token with
  | Option.none => false
  | Option.some t => !(t.is_expired now)

/-- `Server::auth` at time `now`.  The credential exchange is abstracted:
`freshId` is the token text the remote `auth` endpoint would return; the
second component counts the authentication network calls performed (0 when
the cached token is returned, 1 when a new token is fetched).  A freshly
issued token carries a fixed TTL of 3600 seconds. -/
def Server.auth (s : Server) (now : Nat) (freshId : String) : Server × Nat :=
  if s.is_authenticated now then (s, 0)
  else ({ s with token := Option.some ⟨freshId, now, 3600⟩ }, 1)

/-- `Server::get_token`: `auth` then return the cached token's id (the
source `unwrap`s; after `auth` the slot is always occupied, and the empty
string stands for the unreachable `None` arm).  The third component counts
authentication network calls. -/
def Server.get_token (s : Server) (now : Nat) (freshId : String) :
    Server × String × Nat :=
  let (s1, n) := s.auth now freshId
  (s1, (match s1.token with | Option.some t => t.id | Option.none => ""), n)

/-- `Server::deauth`: call the remote `logout` (counted by the second
component) only when a usable token is cached, and clear the slot in every
case. -/
def Server.deauth (s : Server) (now : Nat) : Server × Nat :=
  if s.is_authenticated now then ({ s with token := Option.none }, 1)
  else ({ s with token := Option.none }, 0)

/-- The server phase of `list_shifts_with_offset`: `server.auth()`, then
the HTTP GET whose parsed body is the `fetched` oracle. -/
def list_shifts_server_phase (s : Server) (now : Nat) (freshId : String)
    (fetched : List Shift) : Server × Nat × List Shift :=
  let (s1, n) := s.auth now freshId
  (s1, n, fetched)

/-- The `Server` lifecycle every shift-report handler in src/tg.rs performs
(`handle_today`, `handle_yesterday`, `handle_week`, `handle_month`): a
fresh `Server::new`, one `list_shifts_with_offset`, then `deauth`.  Returns
the final server, the auth-call count and the logout-call count. -/
def reportServerLifecycle (login pass url : String) (now : Nat)
    (freshId : String) (fetched : List Shift) : Server × Nat × Nat :=
  let s0 := Server.new login pass url
  let (s1, a, _) := list_shifts_server_phase s0 now freshId fetched
  let (s2, l) := s1.deauth now
  (s2, a, l)

/-- The `Server` lifecycle of `handle_olap` in src/tg.rs: a fresh server,
`get_token` (which `auth`s), the POST using the token, then `deauth`. -/
def olapServerLifecycle (login pass url : String) (now : Nat)
    (freshId : String) : Server × Nat × Nat :=
  let s0 := Server.new login pass url
  let (s1, _tok, a) := s0.get_token now freshId
  let (s2, l) := s1.deauth now
  (s2, a, l)

/-! ### OLAP grouping (`Server::get_olap`) -/

/-- Content model of `OlapMap = HashMap<String, Vec<OlapElement>>`: an
association list of buckets.  Only the key → bucket association and the
order *within* each bucket are meaningful; the real `HashMap`'s key
iteration order is unspecified (its hasher is randomly seeded), so the
position of a key in this list is a modelling artifact, not a property of
the source. -/
abbrev OlapMap := List (String × List OlapElement)

/-- The grouping key of a row:
`element.DishCategory.unwrap_or_else(|| "Другие".into())`. -/
def OLAPRow.key (r : OLAPRow) : String :=
  r.DishCategory.getD "Другие"

/-- The `OlapElement` built from a response row in the grouping loop. -/
def OLAPRow.toElement (r : OLAPRow) : OlapElement :=
  ⟨r.DishDiscountSumInt, r.DishName, r.GuestNum⟩

/-- `olap_map.entry(key).and_modify(|v| v.push(olap)).or_insert_with(|| vec![olap])`:
append to the existing bucket, or create a singleton bucket for a new key. -/
def olapInsert (m : OlapMap) (k : String) (e : OlapElement) : OlapMap :=
  match m with
  | [] => [(k, [e])]
  | (k', v) :: rest =>
    if k' = k then (k', v ++ [e]) :: rest else (k', v) :: olapInsert rest k e

/-- The grouping loop of `Server::get_olap` over the parsed response rows
(the network fetch itself is outside this function: `rows` is the parsed
`data` array). -/
def get_olap (rows : List OLAPRow) : OlapMap :=
  rows.foldl (fun m r => olapInsert m r.key r.toElement) []

/-- `HashMap::get` on the content model. -/
def lookupOlap (m : OlapMap) (k : String) : Option (List OlapElement) :=
  match m with
  | [] => Option.none
  | (k', v) :: rest => if k' = k then Option.some v else lookupOlap rest k

/-- The bucket of a key, empty when absent. -/
def getBucket (m : OlapMap) (k : String) : List OlapElement :=
  (lookupOlap m k).getD []

/-- All elements stored in the map, across all buckets. -/
def allElems (m : OlapMap) : List OlapElement :=
  (m.map Prod.snd).flatten

/-! ## src/tg.rs — conversation state machine

The teloxide transport (keyboards, chat ids, Markdown escaping, command
registration) is external; handlers are modelled as pure functions from
the shared state (`Ctx`), the current dialogue state and the inbound
message to an `Except`-wrapped step: the new dialogue state, the new
shared state and the list of observable effects, in emission order.
Network fetch results are supplied by the `fetchedShifts` / `fetchedOlap`
oracle fields of `Ctx`. -/

/-- The dialogue `State` enum of src/tg.rs (`State::None` is the initial
state of every chat). -/
inductive TgState where
  | none
  | switch
  | olap
  | addUser
  | deleteUser
  | dialogue
  | report
  | admin
  deriving DecidableEq, Repr

/-- The report buttons of the report submenu. -/
inductive ReportKind where
  | today
  | yesterday
  | week
  | month
  deriving DecidableEq, Repr

/-- Observable effects of a handler, in emission order.  `send` /
`sendMenu` are `bot.send_message` without / with a reply keyboard;
`sentShiftReport` / `sentSumReport` stand for the formatted report message
of `handle_today`-style handlers (the Markdown formatting itself is
transport-level); `netOlap` is the auth + POST + logout round trip of
`handle_olap`; `writeFile` is the rewrite of the accounts array of
`/etc/iiko-bot/tg_cfg.toml`. -/
inductive Effect where
  | send (text : String)
  | sendMenu (text : String)
  | sentShiftReport (kind : ReportKind) (sh : Shift)
  | sentSumReport (kind : ReportKind) (total : Rat)
  | netOlap
  | sentTable (text : String)
  | writeFile (accounts : List String)
  deriving DecidableEq, Repr

/-- An inbound message: the sender's resolved handle
(`message.from?.username?`, `none` when either step fails) and the text
payload (`message.text()`). -/
structure Msg where
  username : Option String
  text : Option String
  deriving DecidableEq, Repr

/-- The shared state threaded through the dispatcher: the in-memory
allow-list and admin-list, the accounts array currently stored in
`tg_cfg.toml`, the per-process OLAP store, the server registry with its
current alias, and the two network oracles. -/
structure Ctx where
  allowed : List String
  admins : List String
  fileAccounts : List String
  olapStore : OlapMap
  servers : List (String × String)
  current : String
  fetchedShifts : List Shift
  fetchedOlap : OlapMap
  deriving DecidableEq, Repr

/-- The outcome of one handler: new dialogue state, new shared state,
effects in emission order. -/
structure Step where
  st : TgState
  ctx : Ctx
  effects : List Effect
  deriving DecidableEq, Repr

/-- The fixed denial message of `handle_start`. -/
def denialText : String := "Вы не в списке пользователей"

/-- The menu prompt used by the main, admin and report menus. -/
def chooseText : String := "Выберите опцию"

/-- The "nothing found" message of `handle_olap`. -/
def nothingFoundText : String := "По вашим фильтрам ничего не найдено."

/-- `username.strip_prefix('@').unwrap_or(&username)`. -/
def stripAt (s : String) : String :=
  match s.data with
  | '@' :: rest => ⟨rest⟩
  | _ => s

/-- `handle_start` from src/tg.rs: resolve the sender, deny (fixed
message, no dialogue update) when the handle is in neither list, otherwise
present the main menu and move to `State::Dialogue`. -/
def handle_start (ctx : Ctx) (st : TgState) (msg : Msg) : Except String Step :=
  match msg.username with
  | Option.none => Except.error "Не удалось определить отправителя"
  | Option.some u =>
    if ¬ ctx.allowed.contains u ∧ ¬ ctx.admins.contains u then
      Except.ok ⟨st, ctx, [Effect.send denialText]⟩
    else
      Except.ok ⟨TgState.dialogue, ctx, [Effect.sendMenu chooseText]⟩

/-- `handle_admin`: non-admins get a denial notice and fall back to
`handle_start`; admins get the admin menu and `State::Admin`. -/
def handle_admin (ctx : Ctx) (st : TgState) (msg : Msg) : Except String Step :=
  match msg.username with
  | Option.none => Except.error "Не удалось определить отправителя"
  | Option.some u =>
    if ¬ ctx.admins.contains u then
      match handle_start ctx st msg with
      | Except.error e => Except.error e
      | Except.ok s =>
        Except.ok ⟨s.st, s.ctx, Effect.send "Вы не находитесь в списке админов" :: s.effects⟩
    else
      Except.ok ⟨TgState.admin, ctx, [Effect.sendMenu chooseText]⟩

/-- `list_reports`: present the report submenu, move to `State::Report`
(no access check of its own). -/
def list_reports (ctx : Ctx) (_st : TgState) (_msg : Msg) : Except String Step :=
  Except.ok ⟨TgState.report, ctx, [Effect.sendMenu chooseText]⟩

/-- `handle_switch`: list the registry keys as a keyboard, move to
`State::Switch`. -/
def handle_switch (ctx : Ctx) (_st : TgState) (_msg : Msg) : Except String Step :=
  Except.ok ⟨TgState.switch, ctx,
    [Effect.sendMenu ("Текущий сервер: *" ++ ctx.current ++ "*")]⟩

/-- The server list text of `handle_list` (Markdown escaping is
transport-level and omitted). -/
def serverListText (ctx : Ctx) : String :=
  "*Список серверов*:\n" ++
    String.intercalate "\n" (ctx.servers.map (fun p => p.1 ++ " -> " ++ p.2)) ++
    "\n*Выбранный сервер*: *" ++ ctx.current ++ "*"

/-- `handle_list`: emit the server list, then `handle_start`. -/
def handle_list (ctx : Ctx) (st : TgState) (msg : Msg) : Except String Step :=
  match handle_start ctx st msg with
  | Except.error e => Except.error e
  | Except.ok s => Except.ok ⟨s.st, s.ctx, Effect.send (serverListText ctx) :: s.effects⟩

/-- `handle_today`: fresh server, `list_shifts_with_offset(Week, 0)`,
`deauth`, then `latest_shift(shifts, 0)` and the formatted message.  The
server lifecycle is modelled separately (`reportServerLifecycle`); here
the shift selection and the emitted report effect are kept. -/
def handle_today (ctx : Ctx) : Except String (List Effect) :=
  match latest_shift ctx.fetchedShifts 0 with
  | Except.error e => Except.error e
  | Except.ok sh => Except.ok [Effect.sentShiftReport ReportKind.today sh]

/-- `handle_yesterday`: as `handle_today` with `latest_shift(shifts, 1)`. -/
def handle_yesterday (ctx : Ctx) : Except String (List Effect) :=
  match latest_shift ctx.fetchedShifts 1 with
  | Except.error e => Except.error e
  | Except.ok sh => Except.ok [Effect.sentShiftReport ReportKind.yesterday sh]

/-- `handle_week`: `sum_shifts` over the week's shifts. -/
def handle_week (ctx : Ctx) : Except String (List Effect) :=
  Except.ok [Effect.sentSumReport ReportKind.week (sum_shifts ctx.fetchedShifts)]

/-- `handle_month`: `sum_shifts` over the month's shifts. -/
def handle_month (ctx : Ctx) : Except String (List Effect) :=
  Except.ok [Effect.sentSumReport ReportKind.month (sum_shifts ctx.fetchedShifts)]

/-- `handle_olap` from src/tg.rs: fetch and group (the `netOlap` round
trip; the grouped result is the `fetchedOlap` oracle), overwrite the
shared OLAP store wholesale, then: empty group ⇒ "nothing found" message
and early return (no `dialogue.update`); otherwise category keyboard and
`State::Olap`. -/
def handle_olap (ctx : Ctx) (st : TgState) (_msg : Msg) : Except String Step :=
  let olap := ctx.fetchedOlap
  let ctx' := { ctx with olapStore := olap }
  if olap.isEmpty then
    Except.ok ⟨st, ctx', [Effect.netOlap, Effect.send nothingFoundText]⟩
  else
    Except.ok ⟨TgState.olap, ctx',
      [Effect.netOlap,
       Effect.sendMenu ("Режим Olap отчёта. Текущий сервер: *" ++ ctx.current ++ "*")]⟩

/-- `handle_reports` (dispatch inside `State::Report`): the four shift
reports run their handler and then `handle_start`; `Olap отчёт` runs
`handle_olap`; `Назад` runs `handle_start`; anything else does nothing. -/
def handle_reports (ctx : Ctx) (st : TgState) (msg : Msg) : Except String Step :=
  match msg.text with
  | Option.none => Except.ok ⟨st, ctx, []⟩
  | Option.some t =>
    let withStart (r : Except String (List Effect)) : Except String Step :=
      match r with
      | Except.error e => Except.error e
      | Except.ok effs =>
        match handle_start ctx st msg with
        | Except.error e => Except.error e
        | Except.ok s => Except.ok ⟨s.st, s.ctx, effs ++ s.effects⟩
    if t = "За сегодня" then withStart (handle_today ctx)
    else if t = "За вчера" then withStart (handle_yesterday ctx)
    else if t = "За 7 дней" then withStart (handle_week ctx)
    else if t = "За текущий месяц" then withStart (handle_month ctx)
    else if t = "Olap отчёт" then handle_olap ctx st msg
    else if t = "Назад" then handle_start ctx st msg
    else Except.ok ⟨st, ctx, []⟩

/-- `handle_add_user`: prompt for a name, move to `State::AddUser`. -/
def handle_add_user (ctx : Ctx) (_st : TgState) (_msg : Msg) : Except String Step :=
  Except.ok ⟨TgState.addUser, ctx, [Effect.send "Введите имя пользователя"]⟩

/-- `handle_delete_user`: present the accounts keyboard, move to
`State::DeleteUser`. -/
def handle_delete_user (ctx : Ctx) (_st : TgState) (_msg : Msg) : Except String Step :=
  Except.ok ⟨TgState.deleteUser, ctx, [Effect.sendMenu "Выберите аккаунт для удаления"]⟩

/-- `handle_list_users`: emit the allow-list, then `handle_start`. -/
def handle_list_users (ctx : Ctx) (st : TgState) (msg : Msg) : Except String Step :=
  match handle_start ctx st msg with
  | Except.error e => Except.error e
  | Except.ok s =>
    Except.ok ⟨s.st, s.ctx,
      Effect.send ("Список пользователей:\n" ++ String.intercalate "\n" ctx.allowed) :: s.effects⟩

/-- `handle_list_admins`: emit the admin list, then `handle_start`. -/
def handle_list_admins (ctx : Ctx) (st : TgState) (msg : Msg) : Except String Step :=
  match handle_start ctx st msg with
  | Except.error e => Except.error e
  | Except.ok s =>
    Except.ok ⟨s.st, s.ctx,
      Effect.send ("Список админов:\n" ++ String.intercalate "\n" ctx.admins) :: s.effects⟩

/-- `callback_admin` (dispatch inside `State::Admin`). -/
def callback_admin (ctx : Ctx) (st : TgState) (msg : Msg) : Except String Step :=
  match msg.text with
  | Option.none => Except.ok ⟨st, ctx, []⟩
  | Option.some t =>
    if t = "Добавить пользователя" then handle_add_user ctx st msg
    else if t = "Удалить пользователя" then handle_delete_user ctx st msg
    else if t = "Список пользователей" then handle_list_users ctx st msg
    else if t = "Список админов" then handle_list_admins ctx st msg
    else if t = "Назад" then handle_start ctx st msg
    else Except.ok ⟨st, ctx, []⟩

/-- `handle_dialogue` (dispatch inside `State::Dialogue`); an inner
handler's error is caught and only logged (`eprintln`), leaving the state
unchanged. -/
def handle_dialogue (ctx : Ctx) (st : TgState) (msg : Msg) : Except String Step :=
  match msg.text with
  | Option.none => Except.ok ⟨st, ctx, []⟩
  | Option.some t =>
    let r :=
      if t = "Отчёты" then list_reports ctx st msg
      else if t = "Сменить сервер" then handle_switch ctx st msg
      else if t = "Список серверов" then handle_list ctx st msg
      else if t = "Администрирование" then handle_admin ctx st msg
      else handle_start ctx st msg
    match r with
    | Except.error _ => Except.ok ⟨st, ctx, []⟩
    | Except.ok s => Except.ok s

/-- `handle_add_user_dialogue` (dispatch inside `State::AddUser`): empty
input re-prompts with no state change; otherwise strip a leading `@`,
append to the in-memory allow-list only if absent, re-read the config file
and push the name *unconditionally*, rewrite the file, move to
`State::None`, confirm, then `handle_start`. -/
def handle_add_user_dialogue (ctx : Ctx) (st : TgState) (msg : Msg) : Except String Step :=
  match msg.text with
  | Option.none => Except.error "Ну удалось получить текст сообщения"
  | Option.some username =>
    if username = "" then
      Except.ok ⟨st, ctx, [Effect.send "Вы не ввели имя пользователя."]⟩
    else
      let stripped := stripAt username
      let allowed' := if ctx.allowed.contains stripped then ctx.allowed
        else ctx.allowed ++ [stripped]
      let fileAccounts' := ctx.fileAccounts ++ [stripped]
      let ctx' := { ctx with allowed := allowed', fileAccounts := fileAccounts' }
      match handle_start ctx' TgState.none msg with
      | Except.error e => Except.error e
      | Except.ok s =>
        Except.ok ⟨s.st, s.ctx,
          Effect.writeFile fileAccounts' ::
            Effect.send ("Пользователь @" ++ stripped ++ " успешно добавлен") :: s.effects⟩

/-- `callback_delete_user` (dispatch inside `State::DeleteUser`): remove a
present handle from the allow-list and the config file; an absent handle
is silently ignored; then `State::None` and `handle_start` (whose error is
only logged). -/
def callback_delete_user (ctx : Ctx) (_st : TgState) (msg : Msg) : Except String Step :=
  match msg.text with
  | Option.none => Except.error "Невозможно получить текст сообщения"
  | Option.some data =>
    let removed := ctx.allowed.contains data
    let ctx' :=
      if removed then
        { ctx with
          allowed := ctx.allowed.filter (fun a => a != data),
          fileAccounts := ctx.fileAccounts.filter (fun a => a != data) }
      else ctx
    let effs :=
      if removed then
        [Effect.writeFile (ctx.fileAccounts.filter (fun a => a != data)),
         Effect.send ("Пользователь @" ++ data ++ " успешно удалён")]
      else []
    match handle_start ctx' TgState.none msg with
    | Except.error _ => Except.ok ⟨TgState.none, ctx', effs⟩
    | Except.ok s => Except.ok ⟨s.st, s.ctx, effs ++ s.effects⟩

/-- `callback_olap` (dispatch inside `State::Olap`): a key present in the
stored group renders its table (`display_olap`); any input then moves to
`State::None` and falls back to `handle_start`. -/
def callback_olap (ctx : Ctx) (_st : TgState) (msg : Msg) : Except String Step :=
  match msg.text with
  | Option.none => Except.error "Невозможно получить текст сообщения"
  | Option.some data =>
    let tableEffs :=
      match lookupOlap ctx.olapStore data with
      | Option.some elems => [Effect.sentTable (display_olap elems)]
      | Option.none => []
    match handle_start ctx TgState.none msg with
    | Except.error e => Except.error e
    | Except.ok s => Except.ok ⟨s.st, s.ctx, tableEffs ++ s.effects⟩

/-- `callback_switch` (dispatch inside `State::Switch`): an alias present
in the registry becomes the current server; then `State::None` and
`handle_start`. -/
def callback_switch (ctx : Ctx) (_st : TgState) (msg : Msg) : Except String Step :=
  match msg.text with
  | Option.none => Except.error "Невозможно получить текст сообщения"
  | Option.some data =>
    let ctx' :=
      match List.lookup data ctx.servers with
      | Option.some _ => { ctx with current := data }
      | Option.none => ctx
    let effs :=
      match List.lookup data ctx.servers with
      | Option.some url => [Effect.send ("Текущий сервер теперь '" ++ data ++ "' -> " ++ url)]
      | Option.none => []
    match handle_start ctx' TgState.none msg with
    | Except.error e => Except.error e
    | Except.ok s => Except.ok ⟨s.st, s.ctx, effs ++ s.effects⟩

/-- `handle_states` from src/tg.rs: the per-message dispatcher.  It
branches on the *current dialogue state first*; any access check happens
only inside the individual handlers (`handle_start`, `handle_admin`).  A
handler error is logged (`eprintln`) and swallowed, leaving the dialogue
state unchanged. -/
def handle_states (ctx : Ctx) (st : TgState) (msg : Msg) : Step :=
  let r :=
    match st with
    | TgState.addUser => handle_add_user_dialogue ctx st msg
    | TgState.deleteUser => callback_delete_user ctx st msg
    | TgState.olap => callback_olap ctx st msg
    | TgState.switch => callback_switch ctx st msg
    | TgState.dialogue => handle_dialogue ctx st msg
    | TgState.report => handle_reports ctx st msg
    | TgState.admin => callback_admin ctx st msg
    | TgState.none => handle_start ctx st msg
  match r with
  | Except.error _ => ⟨st, ctx, []⟩
  | Except.ok s => s

/-! ## Concrete values used by witnesses and counterexamples -/

/-- A concrete shift (all claims are insensitive to the particular field
values). -/
def exShift : Shift :=
  { id := "s1", session_number := 1, fiscal_number := 1, cash_reg_number := 1,
    cash_reg_serial := "r", open_date := "2026-10-01", close_date := Option.none,
    accept_date := Option.none, manager_id := "m", responsible_user_id := Option.none,
    session_start_cash := 0, pay_orders := 100, sum_writeoff_orders := 0,
    sales_cash := 0, sales_credit := 0, sales_card := 0, pay_in := 0, pay_out := 0,
    pay_income := 0, cash_remain := Option.none, cash_diff := 0,
    session_status := SessionStatus.OPEN, conception_id := Option.none }

def exShift2 : Shift :=
  { exShift with id := "s2", session_number := 2, pay_orders := 250 }

def exShift3 : Shift :=
  { exShift with id := "s3", session_number := 3, pay_orders := 75 }

/-- A shift whose net-paid-orders value is `1e16` (representable in
binary64: `10 ^ 16 = 5 ^ 16 · 2 ^ 16` with `5 ^ 16 < 2 ^ 53`). -/
def shiftBig : Shift :=
  { exShift with id := "big", pay_orders := mkRat 10000000000000000 1 }

/-- A shift whose net-paid-orders value is `1.0`. -/
def shiftOne : Shift :=
  { exShift with id := "one", pay_orders := 1 }

/-- A shift whose net-paid-orders value is `-1e16`. -/
def shiftNegBig : Shift :=
  { exShift with id := "negbig", pay_orders := mkRat (-10000000000000000) 1 }

/-! ## C3 — latest_shift -/

/-- Helper: the in-range case of `latest_shift`. -/
theorem latest_shift_of_lt {shifts : List Shift} {offset : Nat}
    (h : offset < shifts.length) :
    latest_shift shifts offset =
      Except.ok (shifts.get ⟨shifts.length - 1 - offset, by omega⟩) := by
  have hnle : ¬ shifts.length ≤ offset := by omega
  have hidx : shifts.length - offset - 1 < shifts.length := by omega
  simp only [latest_shift, if_neg hnle]
  rw [List.get?_eq_get hidx]
  have : shifts.length - offset - 1 = shifts.length - 1 - offset := by omega
  simp [this]

/-- Claim C3 (confirmed).  For every shift list and offset: when
`offset < length`, `latest_shift` returns the element at position
`length - 1 - offset` (offset 0 is the last element); when
`offset ≥ length` (in particular on the empty list) it fails with the
"Нет смены со сдвигом" (not-found) error — no wraparound. -/
theorem latest_shift_spec (shifts : List Shift) (offset : Nat) :
    (∀ h : offset < shifts.length,
      latest_shift shifts offset =
        Except.ok (shifts.get ⟨shifts.length - 1 - offset, by omega⟩)) ∧
    (∀ h : shifts ≠ [],
      latest_shift shifts 0 = Except.ok (shifts.getLast h)) ∧
    (shifts.length ≤ offset →
      latest_shift shifts offset =
        Except.error ("Нет смены со сдвигом " ++ toString offset)) := by
  refine ⟨fun h => latest_shift_of_lt h, fun h => ?_, fun h => ?_⟩
  · have hlen : 0 < shifts.length := List.length_pos.mpr h
    rw [latest_shift_of_lt hlen, List.getLast_eq_get]
    simp
  · simp [latest_shift, if_pos h]

/-- Witness for C3 at concrete inputs: on `[exShift, exShift2]`, offset 0
returns `exShift2` (the last element), offset 1 returns `exShift`, and
offset 2 fails. -/
theorem latest_shift_spec_witness :
    (1 < ([exShift, exShift2] : List Shift).length ∧
      latest_shift [exShift, exShift2] 1 = Except.ok exShift) ∧
    (([exShift, exShift2] : List Shift) ≠ [] ∧
      latest_shift [exShift, exShift2] 0 = Except.ok exShift2) ∧
    (([exShift, exShift2] : List Shift).length ≤ 2 ∧
      latest_shift [exShift, exShift2] 2 =
        Except.error ("Нет смены со сдвигом " ++ toString 2)) := by
  refine ⟨⟨by decide, ?_⟩, ⟨by decide, ?_⟩, ⟨by decide, ?_⟩⟩
  · exact ((latest_shift_spec [exShift, exShift2] 1).1 (by decide)).trans rfl
  · exact ((latest_shift_spec [exShift, exShift2] 0).2.1 (by decide)).trans rfl
  · exact (latest_shift_spec [exShift, exShift2] 2).2.2 (by decide)

/-! ## C4 — sum_shifts -/

set_option maxRecDepth 8000 in
set_option maxHeartbeats 2000000 in
/-- Claim C4 counterexample.  `pay_orders` is `f64` and `sum_shifts` a
sequential `f64` fold; `f64` addition is not associative, so permuting the
input CAN change the result.  Concretely, for net-paid-orders values
`{1e16, 1.0, -1e16}`: in the order `[1e16, 1.0, -1e16]` the partial sum
`1e16 + 1.0` rounds back to `1e16` (the tie at `1e16 + 1` goes to the even
significand), so the total is `0.0`, while the permutation
`[1e16, -1e16, 1.0]` cancels first and totals `1.0`.  The permuted sum
differs, and neither equals the exact arithmetic sum `1.0` in the first
order — both the order-independence conjunct and the
"equals the arithmetic sum" conjunct of the claim are false at this
input. -/
theorem sum_shifts_order_cex :
    List.Perm [shiftBig, shiftOne, shiftNegBig] [shiftBig, shiftNegBig, shiftOne] ∧
    sum_shifts [shiftBig, shiftOne, shiftNegBig] = 0 ∧
    sum_shifts [shiftBig, shiftNegBig, shiftOne] = 1 ∧
    sum_shifts [shiftBig, shiftOne, shiftNegBig] ≠
      sum_shifts [shiftBig, shiftNegBig, shiftOne] ∧
    sum_shifts [shiftBig, shiftOne, shiftNegBig] ≠
      ([shiftBig, shiftOne, shiftNegBig].map (fun sh => sh.pay_orders)).sum := by
  refine ⟨.cons shiftBig (.swap shiftNegBig shiftOne []), ?_, ?_, ?_, ?_⟩ <;>
    with_unfolding_all decide

/-- Claim C4 (corrected; the amended part).  `sum_shifts []` is `0`;
`sum_shifts` is the sequential left-to-right `f64` sum of every shift's
`pay_orders` (net paid orders) field; `f64` addition is commutative, so
the two elements of a two-element list of representable (`f64`) values may
be swapped without changing the result — but the sum is not
order-independent for longer lists (no associativity; see the
counterexample). -/
theorem sum_shifts_spec :
    sum_shifts [] = 0 ∧
    (∀ shifts : List Shift,
      sum_shifts shifts = (shifts.map (fun sh => sh.pay_orders)).foldl fp64add 0) ∧
    (∀ a b : ℚ, fp64add a b = fp64add b a) ∧
    (∀ s1 s2 : Shift, fp64round s1.pay_orders = s1.pay_orders →
      fp64round s2.pay_orders = s2.pay_orders →
      sum_shifts [s1, s2] = sum_shifts [s2, s1]) := by
  have hcomm : ∀ a b : ℚ, fp64add a b = fp64add b a := by
    intro a b
    simp only [fp64add]
    rw [add_comm]
  refine ⟨rfl, fun _ => rfl, hcomm, fun s1 s2 h1 h2 => ?_⟩
  have hz : ∀ c : ℚ, fp64add 0 c = fp64round c := by
    intro c
    simp only [fp64add]
    rw [zero_add]
  simp only [sum_shifts, List.map_cons, List.map_nil, List.foldl_cons,
    List.foldl_nil]
  rw [hz, hz, h1, h2, hcomm]

set_option maxRecDepth 8000 in
set_option maxHeartbeats 2000000 in
/-- Witness for C4's amended statement: `100` and `250` are representable
`f64` values, so their two-element sum is swap-invariant. -/
theorem sum_shifts_spec_witness :
    fp64round exShift.pay_orders = exShift.pay_orders ∧
    fp64round exShift2.pay_orders = exShift2.pay_orders ∧
    sum_shifts [exShift, exShift2] = sum_shifts [exShift2, exShift] := by
  have h1 : fp64round exShift.pay_orders = exShift.pay_orders := by
    with_unfolding_all decide
  have h2 : fp64round exShift2.pay_orders = exShift2.pay_orders := by
    with_unfolding_all decide
  exact ⟨h1, h2, sum_shifts_spec.2.2.2 exShift exShift2 h1 h2⟩

/-! ## C5 — token cache -/

/-- Claim C5 (confirmed).  With a cached token `t`: a `get_token`
(`acquireToken`) call while the TTL has not elapsed
(`now - creation_time < lifetime`) returns the identical cached token id
with zero authentication network calls and an unchanged server; a call
after the TTL has elapsed performs exactly one new authentication and
caches the newly issued token (TTL 3600 s from issuance). -/
theorem get_token_cache_spec (s : Server) (t : NewToken) (now : Nat)
    (freshId : String) (hsome : s.token = Option.some t) :
    (now - t.creation_time < t.lifetime →
      s.get_token now freshId = (s, t.id, 0)) ∧
    (t.lifetime ≤ now - t.creation_time →
      s.get_token now freshId =
        ({ s with token := Option.some ⟨freshId, now, 3600⟩ }, freshId, 1)) := by
  constructor
  · intro h
    have hexp : t.is_expired now = false := by
      simp [NewToken.is_expired]; omega
    simp [Server.get_token, Server.auth, Server.is_authenticated, hsome, hexp]
  · intro h
    have hexp : t.is_expired now = true := by
      simp [NewToken.is_expired]; omega
    simp [Server.get_token, Server.auth, Server.is_authenticated, hsome, hexp]

/-- A concrete cached token and server for the C5 witness. -/
def exToken : NewToken := ⟨"tok", 1000, 3600⟩

def exServer : Server := ⟨"login", "pass", "srv.example", Option.some exToken⟩

/-- Witness for C5: at `now = 2000` (within TTL) the cached `"tok"` is
returned with no network call; at `now = 9000` (TTL elapsed) exactly one
new authentication happens and the fresh token is cached. -/
theorem get_token_cache_spec_witness :
    exServer.token = Option.some exToken ∧
    (2000 - exToken.creation_time < exToken.lifetime ∧
      exServer.get_token 2000 "fresh" = (exServer, "tok", 0)) ∧
    (exToken.lifetime ≤ 9000 - exToken.creation_time ∧
      exServer.get_token 9000 "fresh" =
        ({ exServer with token := Option.some ⟨"fresh", 9000, 3600⟩ }, "fresh", 1)) := by
  refine ⟨rfl, ⟨by decide, ?_⟩, ⟨by decide, ?_⟩⟩
  · exact (get_token_cache_spec exServer exToken 2000 "fresh" rfl).1 (by decide)
  · exact (get_token_cache_spec exServer exToken 9000 "fresh" rfl).2 (by decide)

/-! ## C10 — fresh server and deauth per report command -/

/-- Claim C10 (confirmed).  Every report handler builds a fresh `Server`
whose token cache starts empty, and both the shift-report lifecycle and
the OLAP lifecycle perform exactly one authentication network call and
finish via `deauth` with an empty token slot — so no session token
survives a command, and a subsequent report command (which starts from
`Server::new` again) must authenticate anew: the within-TTL cached-token
path is never exercised across two commands. -/
theorem report_commands_fresh_auth (login pass url : String) (now : Nat)
    (freshId : String) (fetched : List Shift) :
    (Server.new login pass url).token = Option.none ∧
    reportServerLifecycle login pass url now freshId fetched =
      (⟨login, pass, url, Option.none⟩, 1, 1) ∧
    olapServerLifecycle login pass url now freshId =
      (⟨login, pass, url, Option.none⟩, 1, 1) := by
  refine ⟨rfl, ?_, ?_⟩ <;>
    simp [reportServerLifecycle, olapServerLifecycle, list_shifts_server_phase,
      Server.new, Server.auth, Server.deauth, Server.get_token,
      Server.is_authenticated, NewToken.is_expired, Nat.sub_self]

/-! ## C6 — OLAP grouping -/

/-- `getBucket` through one bucket: take it when first, recurse
otherwise. -/
theorem getBucket_cons (k' : String) (v : List OlapElement) (m : OlapMap)
    (k : String) :
    getBucket ((k', v) :: m) k = if k' = k then v else getBucket m k := by
  by_cases h : k' = k <;> simp [getBucket, lookupOlap, h]

/-- Inserting under key `k` appends the element to `k`'s bucket. -/
theorem getBucket_olapInsert_same (m : OlapMap) (k : String) (e : OlapElement) :
    getBucket (olapInsert m k e) k = getBucket m k ++ [e] := by
  induction m with
  | nil => simp [olapInsert, getBucket, lookupOlap]
  | cons p rest ih =>
    obtain ⟨k', v⟩ := p
    by_cases hk : k' = k
    · subst hk
      simp [olapInsert, getBucket_cons]
    · simp [olapInsert, getBucket_cons, hk, ih]

/-- Inserting under key `k'` leaves every other bucket unchanged. -/
theorem getBucket_olapInsert_ne (m : OlapMap) (k k' : String) (e : OlapElement)
    (h : k' ≠ k) :
    getBucket (olapInsert m k' e) k = getBucket m k := by
  induction m with
  | nil => simp [olapInsert, getBucket, lookupOlap, h]
  | cons p rest ih =>
    obtain ⟨k'', v⟩ := p
    by_cases hk : k'' = k'
    · subst hk
      simp [olapInsert, getBucket_cons, h]
    · simp [olapInsert, hk, getBucket_cons, ih]

/-- The bucket of `k` after the grouping fold is the old bucket followed by
the key-`k` rows, in input order. -/
theorem getBucket_get_olap_fold (rows : List OLAPRow) (m : OlapMap) (k : String) :
    getBucket (rows.foldl (fun m r => olapInsert m r.key r.toElement) m) k =
      getBucket m k ++ (rows.filter (fun r => r.key == k)).map OLAPRow.toElement := by
  induction rows generalizing m with
  | nil => simp
  | cons r rest ih =>
    by_cases hk : r.key = k
    · subst hk
      simp [List.foldl_cons, ih, getBucket_olapInsert_same, List.filter_cons]
    · simp [List.foldl_cons, ih, getBucket_olapInsert_ne m k r.key r.toElement hk,
        List.filter_cons, hk]

/-- Inserting one element changes the multiset of stored elements by
exactly that element. -/
theorem allElems_olapInsert (m : OlapMap) (k : String) (e : OlapElement) :
    (allElems (olapInsert m k e)).Perm (allElems m ++ [e]) := by
  induction m with
  | nil => simp [olapInsert, allElems]
  | cons p rest ih =>
    obtain ⟨k', v⟩ := p
    by_cases hk : k' = k
    · subst hk
      rw [show olapInsert ((k', v) :: rest) k' e = (k', v ++ [e]) :: rest from by
        simp [olapInsert]]
      simp only [allElems, List.map_cons, List.flatten_cons]
      rw [List.append_assoc, List.append_assoc]
      exact List.Perm.append_left v List.perm_append_comm
    · rw [show olapInsert ((k', v) :: rest) k e = (k', v) :: olapInsert rest k e from by
        simp [olapInsert, hk]]
      simp only [allElems, List.map_cons, List.flatten_cons] at ih ⊢
      rw [List.append_assoc]
      exact List.Perm.append_left v ih

/-- The grouping fold stores exactly the input rows (as a multiset). -/
theorem allElems_get_olap_fold (rows : List OLAPRow) (m : OlapMap) :
    (allElems (rows.foldl (fun m r => olapInsert m r.key r.toElement) m)).Perm
      (allElems m ++ rows.map OLAPRow.toElement) := by
  induction rows generalizing m with
  | nil => simp
  | cons r rest ih =>
    refine (ih _).trans ?_
    refine ((allElems_olapInsert m r.key r.toElement).append_right _).trans ?_
    simp

/-- Claim C6 (corrected; the amended part).  Grouping preserves every input
row exactly once across the buckets (the concatenation of all buckets is a
permutation of the input rows); the bucket of each category holds exactly
that category's rows in input order; and a row with an absent category is
stored under the sentinel `"Другие"` ("Other") key.  The category
*iteration order* of the map is NOT part of this statement: the map is a
`HashMap`, whose key order is unspecified. -/
theorem get_olap_grouping_spec (rows : List OLAPRow) :
    (allElems (get_olap rows)).Perm (rows.map OLAPRow.toElement) ∧
    (∀ k : String, getBucket (get_olap rows) k =
      (rows.filter (fun r => r.key == k)).map OLAPRow.toElement) ∧
    (∀ r ∈ rows, r.DishCategory = Option.none →
      r.toElement ∈ getBucket (get_olap rows) "Другие") := by
  refine ⟨?_, fun k => ?_, fun r hr hcat => ?_⟩
  · simpa [allElems] using allElems_get_olap_fold rows []
  · simpa [getBucket, lookupOlap] using getBucket_get_olap_fold rows [] k
  · have hkey : r.key = "Другие" := by simp [OLAPRow.key, hcat]
    have := getBucket_get_olap_fold rows [] "Другие"
    simp only [getBucket, lookupOlap, Option.getD_none] at this
    rw [show getBucket (get_olap rows) "Другие" =
      (rows.filter (fun r => r.key == "Другие")).map OLAPRow.toElement from by
        simpa [getBucket, lookupOlap] using this]
    exact List.mem_map_of_mem _ (List.mem_filter.mpr ⟨hr, by simp [hkey]⟩)

/-- Rows used by the C6 witness: one with a category, one without. -/
def c6rows : List OLAPRow :=
  [⟨Option.some "B", 1, "x", 1⟩, ⟨Option.none, 2, "y", 2⟩]

/-- Witness for C6's amended statement: the category-less row of `c6rows`
lands in the `"Другие"` bucket. -/
theorem get_olap_grouping_spec_witness :
    (⟨Option.none, 2, "y", 2⟩ : OLAPRow) ∈ c6rows ∧
    (⟨Option.none, 2, "y", 2⟩ : OLAPRow).DishCategory = Option.none ∧
    OLAPRow.toElement ⟨Option.none, 2, "y", 2⟩ ∈ getBucket (get_olap c6rows) "Другие" :=
  ⟨by decide, rfl, (get_olap_grouping_spec c6rows).2.2 _ (by decide) rfl⟩

/-- Rows whose first-seen category order is `["B", "A"]`. -/
def c6rowsOrd : List OLAPRow :=
  [⟨Option.some "B", 1, "x", 1⟩, ⟨Option.some "A", 2, "y", 2⟩]

/-- Claim C6 counterexample (the ordering part).  The code stores the
groups in a `std::collections::HashMap`, which guarantees only that key
iteration visits each key exactly once, in an unspecified (randomly
seeded) order.  For the concrete input `c6rowsOrd`, whose first-seen
category order is `["B", "A"]`, the order `["A", "B"]` is an admissible
`HashMap` iteration order (a permutation of the keys) that differs from
the first-seen order — so the claimed "ordered by first-seen order of each
category" is not a property the code guarantees. -/
theorem get_olap_order_cex :
    List.Perm ["A", "B"] ((get_olap c6rowsOrd).map Prod.fst) ∧
    ["A", "B"] ≠ (get_olap c6rowsOrd).map Prod.fst := by
  decide

/-! ## C1 — access control relative to state dispatch -/

/-- The shared state of a denied sender's chat: `"mallory"` is in neither
list; one shift is available from the report oracle. -/
def ctxDenied : Ctx :=
  { allowed := [], admins := [], fileAccounts := [], olapStore := [],
    servers := [("srv", "url")], current := "srv",
    fetchedShifts := [exShift], fetchedOlap := [] }

/-- Claim C1 counterexample.  The claim says access control runs before
state dispatch, so that a sender failing the check has every command
(except a bare entry request) refused with the fixed denial message.  In
the code the check lives only inside `handle_start`: with the chat in
`State::Report` (reachable while the sender was still listed, e.g. before
being removed from the allow-list), the denied sender `"mallory"` sends
`"За сегодня"` and the today-report is fetched and sent (the
`sentShiftReport` effect below) *before* the denial message — the command
is executed, not refused. -/
theorem access_check_not_before_dispatch_cex :
    handle_states ctxDenied TgState.report
        ⟨Option.some "mallory", Option.some "За сегодня"⟩ =
      ⟨TgState.report, ctxDenied,
        [Effect.sentShiftReport ReportKind.today exShift, Effect.send denialText]⟩ ∧
    Effect.sentShiftReport ReportKind.today exShift ∈
      (handle_states ctxDenied TgState.report
        ⟨Option.some "mallory", Option.some "За сегодня"⟩).effects := by
  constructor <;> decide

/-- Claim C1 (amended).  The access check is evaluated inside the entry
handler (`handle_start`), not before state dispatch: from the initial
state (`State::None`, where every message lands in `handle_start`), a
sender whose handle is in neither the allow-list nor the admin-list is
refused with the fixed denial message, with no state change and no other
effect; mid-conversation states dispatch their commands without a fresh
access check. -/
theorem access_denied_entry_no_advance (ctx : Ctx) (msg : Msg) (u : String)
    (hu : msg.username = Option.some u)
    (hallow : ctx.allowed.contains u = false)
    (hadmin : ctx.admins.contains u = false) :
    handle_states ctx TgState.none msg =
      ⟨TgState.none, ctx, [Effect.send denialText]⟩ := by
  have h1 : u ∉ ctx.allowed := by simpa using hallow
  have h2 : u ∉ ctx.admins := by simpa using hadmin
  simp [handle_states, handle_start, hu, h1, h2]

/-- Witness for C1's amended statement: the denied `"mallory"` in the
initial state gets exactly the denial and no state change. -/
theorem access_denied_entry_no_advance_witness :
    ctxDenied.allowed.contains "mallory" = false ∧
    ctxDenied.admins.contains "mallory" = false ∧
    handle_states ctxDenied TgState.none
        ⟨Option.some "mallory", Option.some "/start"⟩ =
      ⟨TgState.none, ctxDenied, [Effect.send denialText]⟩ :=
  ⟨by decide, by decide,
    access_denied_entry_no_advance ctxDenied _ "mallory" rfl (by decide) (by decide)⟩

/-! ## C8 — adding a user twice -/

/-- The admin's shared state for the C8 trace: `"root"` is admin and
allowed; the config file currently holds `["root"]`. -/
def ctxAdmin : Ctx :=
  { allowed := ["root"], admins := ["root"], fileAccounts := ["root"], olapStore := [],
    servers := [("srv", "url")], current := "srv",
    fetchedShifts := [], fetchedOlap := [] }

/-- Claim C8 (code_bug), evaluated at the failing input.  In
`State::AddUser` the admin sends `"@alice"` twice (re-entering the
add-user dialogue in between).  The in-memory allow-list deduplicates
(`if !accounts.contains(..)`), so it holds `"alice"` once — but the
persistence path re-reads the config file and pushes the name
*unconditionally* (`telegram_config.accounts.push(stripped.into())`), so
the rewritten file holds `"alice"` twice, contradicting the claim that the
persisted configuration contains the handle exactly once. -/
theorem add_user_twice_duplicates_file :
    (handle_states
        (handle_states ctxAdmin TgState.addUser
          ⟨Option.some "root", Option.some "@alice"⟩).ctx
        TgState.addUser ⟨Option.some "root", Option.some "@alice"⟩).ctx.allowed.count
      "alice" = 1 ∧
    (handle_states
        (handle_states ctxAdmin TgState.addUser
          ⟨Option.some "root", Option.some "@alice"⟩).ctx
        TgState.addUser ⟨Option.some "root", Option.some "@alice"⟩).ctx.fileAccounts.count
      "alice" = 2 := by
  constructor <;> decide

/-! ## C9 — empty OLAP fetch -/

/-- Claim C9 (confirmed).  When the OLAP fetch returns zero rows, the
operator gets the fixed "nothing found" message (no table is sent),
the dialogue does not enter `State::Olap` (`AwaitingOlapCategoryChoice`),
and the conversation stays at the report menu state (`State::Report`, the
menu it was invoked from — no `dialogue.update` runs). -/
theorem empty_olap_no_category_state (ctx : Ctx) (msg : Msg)
    (hempty : ctx.fetchedOlap = []) :
    handle_states ctx TgState.report { msg with text := Option.some "Olap отчёт" } =
      ⟨TgState.report, { ctx with olapStore := [] },
        [Effect.netOlap, Effect.send nothingFoundText]⟩ ∧
    TgState.report ≠ TgState.olap := by
  refine ⟨?_, by decide⟩
  simp [handle_states, handle_reports, handle_olap, hempty]

/-- Witness for C9 at a concrete state: `ctxAdmin` with an empty OLAP
oracle. -/
theorem empty_olap_no_category_state_witness :
    ctxAdmin.fetchedOlap = [] ∧
    handle_states ctxAdmin TgState.report
        ⟨Option.some "root", Option.some "Olap отчёт"⟩ =
      ⟨TgState.report, { ctxAdmin with olapStore := [] },
        [Effect.netOlap, Effect.send nothingFoundText]⟩ :=
  ⟨rfl, (empty_olap_no_category_state ctxAdmin ⟨Option.some "root", Option.none⟩ rfl).1⟩

/-! ## Rendering lemmas (C2, C7) -/

theorem length_repeatChar (c : Char) (n : Nat) : (repeatChar c n).length = n := by
  simp [repeatChar, String.length]

theorem length_singleton_char (c : Char) : (String.singleton c).length = 1 := rfl

theorem length_mk (l : List Char) : (⟨l⟩ : String).length = l.length := rfl

theorem length_sep : ("│" : String).length = 1 := rfl

theorem length_space : (" " : String).length = 1 := rfl

/-- Every border line has width `w0 + w1 + w2 + 10`. -/
theorem length_draw_border (w0 w1 w2 : Nat) (a b c d : Char) :
    (draw_border w0 w1 w2 a b c d).length = w0 + w1 + w2 + 10 := by
  simp [draw_border, String.length_append, length_repeatChar, length_singleton_char]
  omega

theorem length_headerCell (w : Nat) (h : String) (hle : h.length ≤ w) :
    (headerCell w h).length = w + 2 := by
  simp [headerCell, String.length_append, length_repeatChar]
  omega

/-- The header line has the border width as soon as each column is at
least as wide as its header. -/
theorem length_headerLine (w0 w1 w2 : Nat) (h0 : nameHeader.length ≤ w0)
    (h1 : sumHeader.length ≤ w1) (h2 : guestHeader.length ≤ w2) :
    (headerLine w0 w1 w2).length = w0 + w1 + w2 + 10 := by
  simp [headerLine, String.length_append, length_headerCell w0 nameHeader h0,
    length_headerCell w1 sumHeader h1, length_headerCell w2 guestHeader h2, length_sep]
  omega

theorem length_dataCell (w : Nat) (cell : String) (hle : cell.length ≤ w + 1) :
    (dataCell w cell).length = w + 2 := by
  simp [dataCell, String.length_append, length_repeatChar, length_space]
  omega

/-- A data line has the border width as soon as each cell fits its
column. -/
theorem length_dataLine (w0 w1 w2 : Nat) (name c1 c2 : String)
    (h0 : name.length ≤ w0 + 1) (h1 : c1.length ≤ w1 + 1)
    (h2 : c2.length ≤ w2 + 1) :
    (dataLine w0 w1 w2 name c1 c2).length = w0 + w1 + w2 + 10 := by
  simp [dataLine, String.length_append, length_dataCell w0 name h0,
    length_dataCell w1 c1 h1, length_dataCell w2 c2 h2, length_sep]
  omega

/-- The initial value is a lower bound of a `foldl max`. -/
theorem foldl_max_le_init {α : Type} (f : α → Nat) (l : List α) (i : Nat) :
    i ≤ l.foldl (fun w e => max w (f e)) i := by
  induction l generalizing i with
  | nil => exact Nat.le_refl i
  | cons a l ih => exact Nat.le_trans (Nat.le_max_left _ _) (ih _)

/-- Every member's value is a lower bound of a `foldl max`. -/
theorem foldl_max_le_mem {α : Type} (f : α → Nat) (l : List α) (i : Nat) :
    ∀ e ∈ l, f e ≤ l.foldl (fun w e => max w (f e)) i := by
  induction l generalizing i with
  | nil => intro e he; cases he
  | cons a l ih =>
    intro e he
    cases he with
    | head => exact Nat.le_trans (Nat.le_max_right _ _) (foldl_max_le_init f l _)
    | tail _ hmem => exact ih _ e hmem

/-! ### splitWhitespace lemmas -/

/-- Every produced word is at most as long as the remaining input plus the
word in progress. -/
theorem splitWSCore_length_le (l : List Char) :
    ∀ acc : List Char, ∀ w ∈ splitWSCore l acc, w.length ≤ l.length + acc.length := by
  induction l with
  | nil =>
    intro acc w hw
    by_cases h : acc = []
    · simp [splitWSCore, h] at hw
    · simp only [splitWSCore, if_neg h, List.mem_singleton] at hw
      subst hw
      rw [length_mk, List.length_reverse]
      simp
  | cons c cs ih =>
    intro acc w hw
    simp only [splitWSCore] at hw
    by_cases hws : c.isWhitespace
    · rw [if_pos hws] at hw
      by_cases h : acc = []
      · rw [if_pos h] at hw
        have := ih [] w hw
        simp only [List.length_cons, List.length_nil] at this ⊢
        omega
      · rw [if_neg h] at hw
        cases hw with
        | head =>
          rw [length_mk, List.length_reverse]
          simp only [List.length_cons]
          omega
        | tail _ hmem =>
          have := ih [] w hmem
          simp only [List.length_nil] at this
          simp only [List.length_cons]
          omega
    · rw [if_neg hws] at hw
      have := ih (c :: acc) w hw
      simp only [List.length_cons] at this ⊢
      omega

/-- A word of `splitWhitespace s` is at most as long as `s`. -/
theorem splitWhitespace_length_le (s : String) :
    ∀ w ∈ splitWhitespace s, w.length ≤ s.length := by
  intro w hw
  have := splitWSCore_length_le s.data [] w hw
  simp only [List.length_nil, Nat.add_zero] at this
  exact this

/-- Every produced word is nonempty (has positive length). -/
theorem splitWSCore_pos (l : List Char) :
    ∀ acc : List Char, ∀ w ∈ splitWSCore l acc, 0 < w.length := by
  induction l with
  | nil =>
    intro acc w hw
    by_cases h : acc = []
    · simp [splitWSCore, h] at hw
    · simp only [splitWSCore, if_neg h, List.mem_singleton] at hw
      subst hw
      rw [length_mk, List.length_reverse]
      exact List.length_pos.mpr h
  | cons c cs ih =>
    intro acc w hw
    simp only [splitWSCore] at hw
    by_cases hws : c.isWhitespace
    · rw [if_pos hws] at hw
      by_cases h : acc = []
      · rw [if_pos h] at hw
        exact ih [] w hw
      · rw [if_neg h] at hw
        cases hw with
        | head =>
          rw [length_mk, List.length_reverse]
          exact List.length_pos.mpr h
        | tail _ hmem => exact ih [] w hmem
    · rw [if_neg hws] at hw
      exact ih (c :: acc) w hw

/-- Every word of `splitWhitespace s` is nonempty. -/
theorem splitWhitespace_pos (s : String) :
    ∀ w ∈ splitWhitespace s, 0 < w.length :=
  fun w hw => splitWSCore_pos s.data [] w hw

/-! ### wrap_text: line-width bound -/

theorem empty_append_str (s : String) : "" ++ s = s := rfl

/-- `wrapStep` when the word overflows the current line: flush. -/
theorem wrapStep_eq_flush (width : Nat) (acc : List String × String) (w : String)
    (h : acc.2 ≠ "" ∧ width < acc.2.length + 1 + w.length) :
    wrapStep width acc w = (acc.1 ++ [acc.2], w) := by
  simp only [wrapStep, if_pos h]
  simp

/-- `wrapStep` on an empty current line: start the line with the word. -/
theorem wrapStep_eq_empty (width : Nat) (acc : List String × String) (w : String)
    (h : acc.2 = "") :
    wrapStep width acc w = (acc.1, w) := by
  simp only [wrapStep]
  rw [if_neg (by simp [h])]
  simp [h, empty_append_str]

/-- `wrapStep` when the word fits: extend the current line. -/
theorem wrapStep_eq_append (width : Nat) (acc : List String × String) (w : String)
    (h2 : acc.2 ≠ "") (h : acc.2.length + 1 + w.length ≤ width) :
    wrapStep width acc w = (acc.1, acc.2 ++ " " ++ w) := by
  simp only [wrapStep]
  rw [if_neg (fun hc => absurd hc.2 (Nat.not_lt.mpr h))]
  simp [h2]

/-- One wrap step preserves "all lines fit in `width`" when the word
fits. -/
theorem wrapStep_inv (width : Nat) (acc : List String × String) (w : String)
    (hw : w.length ≤ width) (h1 : ∀ l ∈ acc.1, l.length ≤ width)
    (h2 : acc.2.length ≤ width) :
    (∀ l ∈ (wrapStep width acc w).1, l.length ≤ width) ∧
      (wrapStep width acc w).2.length ≤ width := by
  by_cases hflush : acc.2 ≠ "" ∧ width < acc.2.length + 1 + w.length
  · rw [wrapStep_eq_flush width acc w hflush]
    refine ⟨?_, hw⟩
    intro l hl
    rcases List.mem_append.mp hl with h | h
    · exact h1 l h
    · rw [List.mem_singleton] at h
      subst h
      exact h2
  · by_cases h0 : acc.2 = ""
    · rw [wrapStep_eq_empty width acc w h0]
      exact ⟨h1, hw⟩
    · have hle : acc.2.length + 1 + w.length ≤ width := by
        rcases Nat.lt_or_ge width (acc.2.length + 1 + w.length) with h | h
        · exact absurd ⟨h0, h⟩ hflush
        · omega
      rw [wrapStep_eq_append width acc w h0 hle]
      refine ⟨h1, ?_⟩
      rw [String.length_append, String.length_append, length_space]
      omega

/-- The wrap fold preserves the width bound. -/
theorem wrap_fold_le (width : Nat) (ws : List String) :
    ∀ acc : List String × String, (∀ w ∈ ws, w.length ≤ width) →
      (∀ l ∈ acc.1, l.length ≤ width) → acc.2.length ≤ width →
      (∀ l ∈ (ws.foldl (wrapStep width) acc).1, l.length ≤ width) ∧
        (ws.foldl (wrapStep width) acc).2.length ≤ width := by
  induction ws with
  | nil =>
    intro acc _ h1 h2
    exact ⟨h1, h2⟩
  | cons w ws ih =>
    intro acc hws h1 h2
    have hstep := wrapStep_inv width acc w (hws w (by simp)) h1 h2
    exact ih (wrapStep width acc w) (fun x hx => hws x (by simp [hx])) hstep.1 hstep.2

/-- When every word fits in `width`, every wrapped line fits in `width`. -/
theorem wrap_text_lines_le (text : String) (width : Nat)
    (hws : ∀ w ∈ splitWhitespace text, w.length ≤ width) :
    ∀ l ∈ wrap_text text width, l.length ≤ width := by
  have h := wrap_fold_le width (splitWhitespace text) ([], "") hws
    (by intro l hl; cases hl) (by simp [String.length])
  intro l hl
  simp only [wrap_text] at hl
  by_cases hr : ((splitWhitespace text).foldl (wrapStep width) ([], "")).2 ≠ ""
  · rw [if_pos hr] at hl
    rcases List.mem_append.mp hl with hm | hm
    · exact h.1 l hm
    · rw [List.mem_singleton] at hm
      subst hm
      exact h.2
  · rw [if_neg hr] at hl
    exact h.1 l hl

/-! ### wrap_text: lines are whole words joined by single spaces -/

/-- Join words with single spaces (the shape of every `current` built by
`wrap_text`). -/
def joinWords : List String → String
  | [] => ""
  | [w] => w
  | w :: ws => w ++ " " ++ joinWords ws

theorem joinWords_snoc (ws : List String) (w : String) (hne : ws ≠ []) :
    joinWords (ws ++ [w]) = joinWords ws ++ " " ++ w := by
  induction ws with
  | nil => cases hne rfl
  | cons x t ih =>
    cases t with
    | nil => simp [joinWords]
    | cons y t2 =>
      have : (x :: y :: t2) ++ [w] = x :: ((y :: t2) ++ [w]) := rfl
      rw [this]
      have h2 : (y :: t2) ++ [w] = y :: (t2 ++ [w]) := rfl
      rw [show joinWords (x :: (y :: t2 ++ [w])) = x ++ " " ++ joinWords (y :: t2 ++ [w]) from by
        rw [h2]; rfl]
      rw [ih (by simp), show joinWords (x :: y :: t2) = x ++ " " ++ joinWords (y :: t2) from rfl]
      simp [String.append_assoc]

theorem joinWords_pos (ws : List String) (hne : ws ≠ [])
    (hw : ∀ w ∈ ws, 0 < w.length) : 0 < (joinWords ws).length := by
  cases ws with
  | nil => cases hne rfl
  | cons w t =>
    cases t with
    | nil => exact hw w (by simp)
    | cons y t2 =>
      rw [show joinWords (w :: y :: t2) = w ++ " " ++ joinWords (y :: t2) from rfl]
      rw [String.length_append, String.length_append]
      have := hw w (by simp)
      omega

/-- A nonempty word list joins to a nonempty string. -/
theorem joinWords_ne_empty (ws : List String) (hne : ws ≠ [])
    (hw : ∀ w ∈ ws, 0 < w.length) : joinWords ws ≠ "" := by
  intro h
  have := joinWords_pos ws hne hw
  rw [h] at this
  exact Nat.lt_irrefl 0 this

/-- The joined string of an all-nonempty word list is empty only for the
empty list. -/
theorem eq_nil_of_joinWords_empty (ws : List String)
    (hw : ∀ w ∈ ws, 0 < w.length) (h : joinWords ws = "") : ws = [] := by
  by_contra hne
  exact joinWords_ne_empty ws hne hw h

/-- Invariant of the wrap fold: the accumulator is always of the shape
`(done.map joinWords, joinWords cur)` where `done ++ [cur]` partitions the
words consumed so far into groups of consecutive whole words. -/
theorem wrap_fold_groups (width : Nat) (ws : List String)
    (hpos : ∀ w ∈ ws, 0 < w.length) :
    ∀ (done : List (List String)) (cur : List String),
      (∀ g ∈ done, g ≠ []) → (∀ g ∈ done, ∀ w ∈ g, 0 < w.length) →
      (∀ w ∈ cur, 0 < w.length) →
      ∃ (done' : List (List String)) (cur' : List String),
        ws.foldl (wrapStep width) (done.map joinWords, joinWords cur) =
          (done'.map joinWords, joinWords cur') ∧
        done'.flatten ++ cur' = done.flatten ++ cur ++ ws ∧
        (∀ g ∈ done', g ≠ []) ∧ (∀ g ∈ done', ∀ w ∈ g, 0 < w.length) ∧
        (∀ w ∈ cur', 0 < w.length) := by
  induction ws with
  | nil =>
    intro done cur hd hdw hc
    exact ⟨done, cur, rfl, by simp, hd, hdw, hc⟩
  | cons w rest ih =>
    intro done cur hd hdw hc
    have hwpos : 0 < w.length := hpos w (by simp)
    have hrest : ∀ x ∈ rest, 0 < x.length := fun x hx => hpos x (by simp [hx])
    by_cases hcur : cur = []
    · subst hcur
      have hstep : wrapStep width (done.map joinWords, joinWords []) w =
          (done.map joinWords, joinWords [w]) := by
        exact wrapStep_eq_empty width _ w rfl
      rw [List.foldl_cons, hstep]
      obtain ⟨d', c', heq, hflat, h1, h2, h3⟩ :=
        ih hrest done [w] hd hdw (by intro x hx; rw [List.mem_singleton] at hx; subst hx; exact hwpos)
      refine ⟨d', c', heq, ?_, h1, h2, h3⟩
      rw [hflat]
      simp
    · have hjoin_ne : joinWords cur ≠ "" := joinWords_ne_empty cur hcur hc
      by_cases hflush : width < (joinWords cur).length + 1 + w.length
      · have hstep : wrapStep width (done.map joinWords, joinWords cur) w =
            ((done ++ [cur]).map joinWords, joinWords [w]) := by
          rw [wrapStep_eq_flush width _ w ⟨hjoin_ne, hflush⟩]
          simp [joinWords]
        rw [List.foldl_cons, hstep]
        obtain ⟨d', c', heq, hflat, h1, h2, h3⟩ :=
          ih hrest (done ++ [cur]) [w]
            (by intro g hg; rcases List.mem_append.mp hg with h | h
                · exact hd g h
                · rw [List.mem_singleton] at h; subst h; exact hcur)
            (by intro g hg; rcases List.mem_append.mp hg with h | h
                · exact hdw g h
                · rw [List.mem_singleton] at h; subst h; exact hc)
            (by intro x hx; rw [List.mem_singleton] at hx; subst hx; exact hwpos)
        refine ⟨d', c', heq, ?_, h1, h2, h3⟩
        rw [hflat]
        simp
      · have hstep : wrapStep width (done.map joinWords, joinWords cur) w =
            (done.map joinWords, joinWords (cur ++ [w])) := by
          rw [wrapStep_eq_append width _ w hjoin_ne (Nat.not_lt.mp hflush)]
          rw [joinWords_snoc cur w hcur]
        rw [List.foldl_cons, hstep]
        obtain ⟨d', c', heq, hflat, h1, h2, h3⟩ :=
          ih hrest done (cur ++ [w]) hd hdw
            (by intro x hx; rcases List.mem_append.mp hx with h | h
                · exact hc x h
                · rw [List.mem_singleton] at h; subst h; exact hwpos)
        refine ⟨d', c', heq, ?_, h1, h2, h3⟩
        rw [hflat]
        simp

/-- `wrap_text` splits only at whitespace boundaries: its output is a
partition of the word sequence of `text` into nonempty groups of
consecutive whole words, each group joined with single spaces — no word is
ever cut. -/
theorem wrap_text_groups (text : String) (width : Nat) :
    ∃ groups : List (List String),
      groups.flatten = splitWhitespace text ∧ (∀ g ∈ groups, g ≠ []) ∧
      wrap_text text width = groups.map joinWords := by
  have hpos := splitWhitespace_pos text
  obtain ⟨d', c', heq, hflat, h1, h2, h3⟩ :=
    wrap_fold_groups width (splitWhitespace text) hpos [] []
      (by intro g hg; cases hg) (by intro g hg; cases hg) (by intro w hw; cases hw)
  have heq' : (splitWhitespace text).foldl (wrapStep width) ([], "") =
      (d'.map joinWords, joinWords c') := heq
  have hflat' : d'.flatten ++ c' = splitWhitespace text := by simpa using hflat
  simp only [wrap_text]
  rw [heq']
  by_cases hc : c' = []
  · subst hc
    refine ⟨d', by simpa using hflat', h1, ?_⟩
    rw [if_neg (by simp [joinWords])]
  · refine ⟨d' ++ [c'], by simpa using hflat', ?_, ?_⟩
    · intro g hg
      rcases List.mem_append.mp hg with h | h
      · exact h1 g h
      · rw [List.mem_singleton] at h
        subst h
        exact hc
    · rw [if_pos ((joinWords_ne_empty c' hc h3) : (d'.map joinWords, joinWords c').2 ≠ "")]
      simp

/-! ## C7 — at most 20 rows, stable descending sort, no mid-word split -/

/-- A list is pairwise related when the relation holds between any two of
its members. -/
theorem pairwise_of_forall_mem {α : Type} {R : α → α → Prop} (l : List α)
    (h : ∀ a ∈ l, ∀ b ∈ l, R a b) : l.Pairwise R := by
  induction l with
  | nil => exact List.Pairwise.nil
  | cons a t ih =>
    exact List.Pairwise.cons (fun b hb => h a (by simp) b (by simp [hb]))
      (ih fun x hx y hy => h x (by simp [hx]) y (by simp [hy]))

theorem guestLe_trans : ∀ a b c : OlapElement,
    guestLe a b → guestLe b c → guestLe a c := by
  intro a b c hab hbc
  simp only [guestLe, decide_eq_true_eq] at *
  omega

theorem guestLe_total : ∀ a b : OlapElement, guestLe a b || guestLe b a := by
  intro a b
  simp only [guestLe]
  rcases Nat.le_total b.GuestNum a.GuestNum with h | h <;> simp [h]

/-- Stability of the sort: rows with any fixed guest count keep their
original relative order (the stable sort is unique, so `mergeSort`'s
stability is the code's). -/
theorem sortRows_filter_stable (elements : List OlapElement) (k : Nat) :
    (sortRows elements).filter (fun e => e.GuestNum == k) =
      elements.filter (fun e => e.GuestNum == k) := by
  set p : OlapElement → Bool := fun e => e.GuestNum == k with hp
  have hmemk : ∀ e ∈ elements.filter p, e.GuestNum = k := by
    intro e he
    have := (List.mem_filter.mp he).2
    simpa [hp] using this
  have hpair : (elements.filter p).Pairwise (fun a b => guestLe a b = true) :=
    pairwise_of_forall_mem _ (fun a ha b hb => by
      simp [guestLe, hmemk a ha, hmemk b hb])
  have hsub2 : List.Sublist (elements.filter p) (sortRows elements) :=
    List.sublist_mergeSort guestLe_trans guestLe_total hpair (List.filter_sublist _)
  have hself : (elements.filter p).filter p = elements.filter p :=
    List.filter_eq_self.mpr (fun a ha => (List.mem_filter.mp ha).2)
  have hsub3 : List.Sublist (elements.filter p) ((sortRows elements).filter p) := by
    rw [← hself]
    exact List.Sublist.filter p hsub2
  have hperm : ((sortRows elements).filter p).Perm (elements.filter p) :=
    List.Perm.filter p (List.mergeSort_perm elements guestLe)
  exact (hsub3.eq_of_length hperm.length_eq.symm).symm

/-- Claim C7 (confirmed).  For every non-empty row list: at most 20 data
rows are displayed; they are ordered by guest count descending; the sort
is stable (rows of any equal guest count keep their input order); and
every displayed dish name is wrapped by splitting only at whitespace
boundaries — each output line is a run of consecutive whole words joined
by single spaces, never a fragment of a word. -/
theorem display_olap_rows_spec (elements : List OlapElement)
    (_hne : elements ≠ []) :
    (displayedRows elements).length ≤ 20 ∧
    (displayedRows elements).Pairwise (fun a b => b.GuestNum ≤ a.GuestNum) ∧
    (∀ k : Nat, (sortRows elements).filter (fun e => e.GuestNum == k) =
      elements.filter (fun e => e.GuestNum == k)) ∧
    (∀ e ∈ displayedRows elements, ∃ groups : List (List String),
      groups.flatten = splitWhitespace e.DishName ∧ (∀ g ∈ groups, g ≠ []) ∧
      wrap_text e.DishName (width0 (displayedRows elements)) =
        groups.map joinWords) := by
  refine ⟨?_, ?_, fun k => sortRows_filter_stable elements k, fun e _ => wrap_text_groups _ _⟩
  · simp [displayedRows, List.length_take]
  · have hsorted : (sortRows elements).Pairwise (fun a b => guestLe a b = true) :=
      List.sorted_mergeSort guestLe_trans guestLe_total elements
    have htake : (displayedRows elements).Pairwise (fun a b => guestLe a b = true) :=
      List.Pairwise.sublist (List.take_sublist 20 _) hsorted
    exact htake.imp (fun h => by simpa [guestLe] using h)

/-- Elements used by the C7 and C2 witnesses. -/
def exElems : List OlapElement :=
  [⟨100, "Пюре с котлетой", 3⟩, ⟨250, "Чай", 7⟩]

/-- Witness for C7 at `exElems`. -/
theorem display_olap_rows_spec_witness :
    (exElems ≠ []) ∧ (displayedRows exElems).length ≤ 20 :=
  ⟨by decide, (display_olap_rows_spec exElems (by decide)).1⟩

/-! ## C2 — uniform line width -/

/-- Every line of one element's rendering has the border width, provided
its wrapped name lines and both numeric cells fit their columns. -/
theorem length_mem_elementLines (w0 w1 w2 : Nat) (e : OlapElement)
    (hname : ∀ l ∈ wrap_text e.DishName w0, l.length ≤ w0)
    (h1 : (toString e.DishDiscountSumInt).length ≤ w1)
    (h2 : (toString e.GuestNum).length ≤ w2) :
    ∀ l ∈ elementLines w0 w1 w2 e, l.length = w0 + w1 + w2 + 10 := by
  intro l hl
  cases hwrap : wrap_text e.DishName w0 with
  | nil =>
    simp only [elementLines, hwrap] at hl
    cases hl
  | cons line rest =>
    simp only [elementLines, hwrap] at hl
    cases hl with
    | head =>
      refine length_dataLine w0 w1 w2 _ _ _ ?_ (by omega) (by omega)
      have := hname line (by rw [hwrap]; exact List.mem_cons_self _ _)
      omega
    | tail _ hmem =>
      obtain ⟨l', hl', rfl⟩ := List.mem_map.mp hmem
      refine length_dataLine w0 w1 w2 _ _ _ ?_ (Nat.zero_le _) (Nat.zero_le _)
      have := hname l' (by rw [hwrap]; exact List.mem_cons_of_mem _ hl')
      omega

/-- Every body line (data lines and inter-row separators) has the border
width. -/
theorem length_mem_bodyLines (w0 w1 w2 : Nat) (rows : List OlapElement) :
    (∀ e ∈ rows, ∀ l ∈ elementLines w0 w1 w2 e, l.length = w0 + w1 + w2 + 10) →
    ∀ l ∈ bodyLines w0 w1 w2 rows, l.length = w0 + w1 + w2 + 10 := by
  induction rows with
  | nil =>
    intro _ l hl
    simp [bodyLines] at hl
  | cons e rest ih =>
    intro h l hl
    cases rest with
    | nil => exact h e (by simp) l (by simpa [bodyLines] using hl)
    | cons e2 r2 =>
      simp only [bodyLines, List.mem_append, List.mem_cons] at hl
      rcases hl with h1 | h2 | h3
      · exact h e (by simp) l h1
      · subst h2
        exact length_draw_border w0 w1 w2 _ _ _ _
      · refine ih (fun x hx => h x (by simp [hx])) l ?_
        simpa [bodyLines] using h3

/-- Claim C2 (corrected; the amended part).  For every non-empty row list
in which no whitespace-separated word of a dish name exceeds the
15-character name-column cap, rendering terminates (no padding
subtraction underflows) and every line of the output — top border, header,
separator, data and wrapped continuation lines, inter-row separators,
bottom border — has the same total visual width as the borders, counted in
characters, not bytes. -/
theorem display_olap_uniform_width (elements : List OlapElement)
    (_hne : elements ≠ [])
    (hwords : ∀ e ∈ elements, ∀ w ∈ splitWhitespace e.DishName, w.length ≤ 15) :
    ∀ line ∈ displayLines elements, line.length = tableWidth elements := by
  intro line hline
  have hmemel : ∀ e ∈ displayedRows elements, e ∈ elements := by
    intro e he
    exact List.mem_mergeSort.mp ((List.take_sublist 20 _).subset he)
  have hw0 : ∀ e ∈ displayedRows elements,
      ∀ w ∈ splitWhitespace e.DishName,
        w.length ≤ width0 (displayedRows elements) := by
    intro e he w hw
    have h15 := hwords e (hmemel e he) w hw
    have hlen := splitWhitespace_length_le _ w hw
    have hmin : min e.DishName.length 15 ≤ width0 (displayedRows elements) :=
      foldl_max_le_mem (fun e => min e.DishName.length 15) (displayedRows elements)
        nameHeader.length e he
    omega
  have hname : ∀ e ∈ displayedRows elements,
      ∀ l ∈ wrap_text e.DishName (width0 (displayedRows elements)),
        l.length ≤ width0 (displayedRows elements) :=
    fun e he => wrap_text_lines_le _ _ (hw0 e he)
  have hc1 : ∀ e ∈ displayedRows elements,
      (toString e.DishDiscountSumInt).length ≤ width1 (displayedRows elements) :=
    fun e he => foldl_max_le_mem (fun e => (toString e.DishDiscountSumInt).length)
      (displayedRows elements) sumHeader.length e he
  have hc2 : ∀ e ∈ displayedRows elements,
      (toString e.GuestNum).length ≤ width2 (displayedRows elements) :=
    fun e he => foldl_max_le_mem (fun e => (toString e.GuestNum).length)
      (displayedRows elements) guestHeader.length e he
  have hh0 : nameHeader.length ≤ width0 (displayedRows elements) :=
    foldl_max_le_init (fun e : OlapElement => min e.DishName.length 15)
      (displayedRows elements) nameHeader.length
  have hh1 : sumHeader.length ≤ width1 (displayedRows elements) :=
    foldl_max_le_init (fun e : OlapElement => (toString e.DishDiscountSumInt).length)
      (displayedRows elements) sumHeader.length
  have hh2 : guestHeader.length ≤ width2 (displayedRows elements) :=
    foldl_max_le_init (fun e : OlapElement => (toString e.GuestNum).length)
      (displayedRows elements) guestHeader.length
  simp only [displayLines, List.mem_cons, List.mem_append,
    List.mem_singleton, List.not_mem_nil, or_false] at hline
  rcases hline with rfl | rfl | rfl | hbody | rfl
  · rw [length_draw_border]
    rfl
  · rw [length_headerLine _ _ _ hh0 hh1 hh2]
    rfl
  · rw [length_draw_border]
    rfl
  · rw [length_mem_bodyLines _ _ _ _
      (fun e he => length_mem_elementLines _ _ _ e (hname e he) (hc1 e he) (hc2 e he))
      line hbody]
    rfl
  · rw [length_draw_border]
    rfl

/-- A dish name that is a single 17-character word: it cannot be wrapped
into the 15-character name column. -/
def c2elem : OlapElement := ⟨100, "Сверхдлинноеблюдо", 3⟩

/-- Claim C2 counterexample.  For the single row `c2elem`, whose dish name
is one 17-character word, `wrap_text` (which never splits a word) emits a
17-character line while the name column is capped at 15, so the data line
is wider than the borders: the claim "every line has the same total visual
width as the borders" is false at this input.  (In the Rust source the
same input makes the `usize` padding subtraction
`widths[0] + 2 - 1 - line.chars().count()` underflow — a panic — so
"terminates without error" fails there too; truncating `Nat` subtraction
renders the overlong line instead.) -/
theorem display_olap_width_cex :
    ¬ ∀ line ∈ displayLines [c2elem], line.length = tableWidth [c2elem] := by
  have hd : displayedRows [c2elem] = [c2elem] := by
    simp [displayedRows, sortRows, List.mergeSort_singleton]
  have hlines : displayLines [c2elem] =
      draw_border (width0 [c2elem]) (width1 [c2elem]) (width2 [c2elem]) '┌' '─' '┬' '┐' ::
        headerLine (width0 [c2elem]) (width1 [c2elem]) (width2 [c2elem]) ::
        draw_border (width0 [c2elem]) (width1 [c2elem]) (width2 [c2elem]) '├' '─' '┼' '┤' ::
        (bodyLines (width0 [c2elem]) (width1 [c2elem]) (width2 [c2elem]) [c2elem] ++
          [draw_border (width0 [c2elem]) (width1 [c2elem]) (width2 [c2elem]) '└' '─' '┴' '┘']) := by
    simp only [displayLines, hd]
  have htw : tableWidth [c2elem] =
      width0 [c2elem] + width1 [c2elem] + width2 [c2elem] + 10 := by
    simp only [tableWidth, hd]
  intro h
  rw [hlines, htw] at h
  have hdata := h (dataLine (width0 [c2elem]) (width1 [c2elem]) (width2 [c2elem])
    "Сверхдлинноеблюдо" (toString c2elem.DishDiscountSumInt)
    (toString c2elem.GuestNum)) (by decide)
  revert hdata
  decide

/-- Witness for C2's amended statement at `exElems` (all words fit the
cap). -/
theorem display_olap_uniform_width_witness :
    (exElems ≠ []) ∧
    (∀ e ∈ exElems, ∀ w ∈ splitWhitespace e.DishName, w.length ≤ 15) ∧
    (∀ line ∈ displayLines exElems, line.length = tableWidth exElems) :=
  ⟨by decide, by decide,
    display_olap_uniform_width exElems (by decide) (by decide)⟩

end IikoBot
